import Mathlib

/-!
Verification development for a cache-aside key-value service:
a fixed-capacity LRU cache (`lru_cache.h`), a PostgreSQL-backed durable
store (`pg_store.h`), and the HTTP server handlers (`server.cpp`) that
coordinate the two.

The C++ structures are shallowly embedded:
* The LRU cache's doubly-linked recency list `nodes_` becomes a Lean list
  of (key, value) pairs, front = most-recently-used.  The
  `unordered_map<string, iterator>` lookup index `map_` cannot hold
  iterators in a pure model, so it is embedded as its key set (a list of
  keys); the node an index entry designates is recovered by key lookup in
  the recency list, which coincides with the C++ iterator dereference
  whenever the index and the list are in their documented 1:1
  correspondence (proved below as an invariant of all reachable states).
* The store keeps an association-list table standing for the `kv_store`
  SQL table and the `last_err` string; the outcome of each SQL command
  (success vs. backend failure, which is outside the repository) enters
  as an explicit `ExecOutcome` parameter.  Query counters and latency
  bookkeeping are dropped: no claim mentions them.
* Each HTTP handler becomes a pure function from the pair
  (cache, store) and the request to the response and the new pair.
-/

namespace KVService

/-- State of `LRUCache` (lru_cache.h): capacity `capacity_`, recency list
`nodes_` of (key, value) nodes with the most-recently-used node at the
front, the key set `map_` of the lookup index, and the hit/miss counters. -/
structure LRUCache where
  capacity_ : Nat
  nodes_ : List (String × String)
  map_ : List String
  hit_count_ : Nat
  miss_count_ : Nat
  deriving Repr, DecidableEq

/-- `LRUCache(capacity)`: fresh cache, empty structures, zero counters. -/
def LRUCache.init (capacity : Nat) : LRUCache :=
  { capacity_ := capacity, nodes_ := [], map_ := [], hit_count_ := 0, miss_count_ := 0 }

/-- `LRUCache::get`: if the key is absent from the index, count a miss and
return nothing; otherwise splice the key's node to the front, count a hit
and return its value.  (The inner `none` arm is the pure-model rendering of
dereferencing an index entry whose node is missing from the list; it never
fires when index and list correspond.) -/
def LRUCache.get (c : LRUCache) (key : String) : Option String × LRUCache :=
  if c.map_.contains key then
    match c.nodes_.find? (fun p => p.1 == key) with
    | some p =>
        (some p.2,
          { c with
            nodes_ := p :: c.nodes_.eraseP (fun q => q.1 == key),
            hit_count_ := c.hit_count_ + 1 })
    | none => (none, { c with hit_count_ := c.hit_count_ + 1 })
  else
    (none, { c with miss_count_ := c.miss_count_ + 1 })

/-- The eviction step of `LRUCache::put`: when `nodes_.size() >= capacity_`,
read the back node, erase its key from the index and pop it off the list;
otherwise do nothing.  (The C++ always has a back node when this fires; the
`none` arm is the total-function rendering of that impossible read.) -/
def LRUCache.evictIfFull (c : LRUCache) : LRUCache :=
  if c.capacity_ ≤ c.nodes_.length then
    match c.nodes_.getLast? with
    | some last =>
        { c with nodes_ := c.nodes_.dropLast, map_ := c.map_.erase last.1 }
    | none => c
  else c

/-- The insertion step of `LRUCache::put`: `emplace_front` the new node and
index its key. -/
def LRUCache.insertFront (c : LRUCache) (key value : String) : LRUCache :=
  { c with nodes_ := (key, value) :: c.nodes_, map_ := key :: c.map_ }

/-- `LRUCache::put`: if the key already has a node, overwrite its value and
splice it to the front; otherwise evict the back node if the cache is at
capacity, then push the new node at the front and index it. -/
def LRUCache.put (c : LRUCache) (key value : String) : LRUCache :=
  if c.map_.contains key then
    match c.nodes_.find? (fun p => p.1 == key) with
    | some p =>
        { c with nodes_ := (p.1, value) :: c.nodes_.eraseP (fun q => q.1 == key) }
    | none => c
  else
    (c.evictIfFull).insertFront key value

/-- `LRUCache::erase`: remove the key's node and index entry if present,
otherwise do nothing. -/
def LRUCache.erase (c : LRUCache) (key : String) : LRUCache :=
  if c.map_.contains key then
    { c with
      nodes_ := c.nodes_.eraseP (fun q => q.1 == key),
      map_ := c.map_.erase key }
  else c

/-- `LRUCache::clear`: drop every node and index entry, zero both counters;
the capacity is untouched. -/
def LRUCache.clear (c : LRUCache) : LRUCache :=
  { c with nodes_ := [], map_ := [], hit_count_ := 0, miss_count_ := 0 }

/-- `LRUCache::size`: number of nodes. -/
def LRUCache.size (c : LRUCache) : Nat := c.nodes_.length

/-- `LRUCache::capacity`. -/
def LRUCache.capacity (c : LRUCache) : Nat := c.capacity_

/-- `LRUCache::hits`. -/
def LRUCache.hits (c : LRUCache) : Nat := c.hit_count_

/-- `LRUCache::misses`. -/
def LRUCache.misses (c : LRUCache) : Nat := c.miss_count_

/-- One cache operation, for talking about reachable cache states. -/
inductive CacheOp where
  | get (key : String)
  | put (key value : String)
  | erase (key : String)
  | clear
  deriving Repr, DecidableEq

/-- State effect of a cache operation. -/
def applyOp (c : LRUCache) : CacheOp → LRUCache
  | .get k => (c.get k).2
  | .put k v => c.put k v
  | .erase k => c.erase k
  | .clear => c.clear

/-- Run a sequence of cache operations from a given state. -/
def runOps (c : LRUCache) (ops : List CacheOp) : LRUCache :=
  ops.foldl applyOp c

/-- The cache's structural invariant: the recency list fits in the
capacity, its keys are pairwise distinct, and the lookup index holds
exactly those keys (each index key naming exactly one node and
conversely). -/
def Inv (c : LRUCache) : Prop :=
  c.nodes_.length ≤ c.capacity_ ∧
  (c.nodes_.map Prod.fst).Nodup ∧
  c.map_.Perm (c.nodes_.map Prod.fst)

instance (c : LRUCache) : Decidable (Inv c) := by
  unfold Inv; infer_instance

/-! ## The durable store (pg_store.h)

`PGStore` talks to PostgreSQL through libpq.  The backend itself is outside
the repository; what each method does with a backend answer is in
`pg_store.h` and is modelled here.  An `ExecOutcome` parameter stands for
the fate of the one SQL command a method issues: `ok` when `PQexecParams`
returns a result with the expected success status, `fail msg` when the
result is null or carries an error status with diagnostic `msg` (the
`PQresultErrorMessage` of a failed command is never the empty string; the
theorems that need it take `msg ≠ ""` as a hypothesis). -/

/-- Outcome of one SQL command execution at the backend. -/
inductive ExecOutcome where
  | ok
  | fail (msg : String)
  deriving Repr, DecidableEq

/-- State of `PGStore`: whether `conn` is a live connection, the rows of
the `kv_store` table (key is the primary key), and the `last_err` string. -/
structure PGStore where
  conn : Bool
  table : List (String × String)
  last_err : String
  deriving Repr, DecidableEq

/-- `SELECT value FROM kv_store WHERE key = $1` row lookup. -/
def tableGet (t : List (String × String)) (key : String) : Option String :=
  (t.find? (fun p => p.1 == key)).map Prod.snd

/-- `INSERT ... ON CONFLICT (key) DO UPDATE SET value = EXCLUDED.value`. -/
def tableUpsert (t : List (String × String)) (key value : String) :
    List (String × String) :=
  if t.any (fun p => p.1 == key) then
    t.map (fun p => if p.1 == key then (p.1, value) else p)
  else
    t ++ [(key, value)]

/-- `DELETE FROM kv_store WHERE key = $1` — removes the matching row if
any; deleting zero rows is still a completed command. -/
def tableDelete (t : List (String × String)) (key : String) :
    List (String × String) :=
  t.filter (fun p => p.1 != key)

/-- `PGStore::get`: fails with `last_err = "not connected"` when there is
no connection; on a failed SELECT stores the diagnostic in `last_err`; on
a completed SELECT with zero rows returns not-found *without touching*
`last_err`; otherwise returns the value.  The C++ `bool` return plus the
`value` out-parameter is rendered as `Option String` (`some v` = returned
`true` with `value = v`, `none` = returned `false`). -/
def PGStore.get (st : PGStore) (key : String) (exec : ExecOutcome) :
    Option String × PGStore :=
  if !st.conn then (none, { st with last_err := "not connected" })
  else
    match exec with
    | .fail msg => (none, { st with last_err := msg })
    | .ok => (tableGet st.table key, st)

/-- `PGStore::put`: upsert; `false` with `last_err` set when not connected
or the command fails, `true` otherwise. -/
def PGStore.put (st : PGStore) (key value : String) (exec : ExecOutcome) :
    Bool × PGStore :=
  if !st.conn then (false, { st with last_err := "not connected" })
  else
    match exec with
    | .fail msg => (false, { st with last_err := msg })
    | .ok => (true, { st with table := tableUpsert st.table key value })

/-- `PGStore::del`: issue the DELETE; `true` whenever the command
completes (`PGRES_COMMAND_OK`), whether or not a row matched; `false` with
`last_err` set when not connected or the command fails. -/
def PGStore.del (st : PGStore) (key : String) (exec : ExecOutcome) :
    Bool × PGStore :=
  if !st.conn then (false, { st with last_err := "not connected" })
  else
    match exec with
    | .fail msg => (false, { st with last_err := msg })
    | .ok => (true, { st with table := tableDelete st.table key })

/-- `PGStore::last_error`. -/
def PGStore.last_error (st : PGStore) : String := st.last_err

/-! ## The server handlers (server.cpp)

Each `/kv/(.+)` handler is a pure function of the mutable pair
(cache, db) and the request.  Logging and the global request counters are
dropped; the response is rendered as its HTTP status plus the JSON fields
the handler sets. -/

/-- The pair of stateful components a handler touches. -/
structure SystemState where
  cache : LRUCache
  db : PGStore
  deriving Repr, DecidableEq

/-- The parts of an `httplib::Response` the handlers set: the HTTP status
and the `status` / `value` / `error` / `message` fields of the JSON body. -/
structure HttpResponse where
  status : Nat
  body_status : String
  value : Option String
  error : Option String
  message : Option String
  deriving Repr, DecidableEq

/-- `svr.Get(R"(/kv/(.+))")`: try the cache; on a hit answer 200 from the
cache without any DB access.  On a miss call `db.get`; if it returns a
value answer 200 and populate the cache; if it returns `false` — whether
because the key is absent or because the backend failed (the handler only
logs `last_error`) — answer 404 `"Key not found"`.  The final `Bool`
records whether the DB was queried. -/
def handleGet (s : SystemState) (key : String) (exec : ExecOutcome) :
    HttpResponse × SystemState × Bool :=
  match s.cache.get key with
  | (some val, cache1) =>
      (⟨200, "ok", some val, none, none⟩, ⟨cache1, s.db⟩, false)
  | (none, cache1) =>
      match s.db.get key exec with
      | (some val, db1) =>
          (⟨200, "ok", some val, none, none⟩, ⟨cache1.put key val, db1⟩, true)
      | (none, db1) =>
          (⟨404, "error", none, some "Key not found", none⟩, ⟨cache1, db1⟩, true)

/-- `svr.Put(R"(/kv/(.+))")`: write through — `db.put` first; on failure
answer 500 `"DB write failed"` with the cache untouched; only on success
update the cache and answer 201. -/
def handlePut (s : SystemState) (key value : String) (exec : ExecOutcome) :
    HttpResponse × SystemState :=
  match s.db.put key value exec with
  | (false, db1) =>
      (⟨500, "error", none, some "DB write failed", none⟩, ⟨s.cache, db1⟩)
  | (true, db1) =>
      (⟨201, "ok", none, none, none⟩, ⟨s.cache.put key value, db1⟩)

/-- `svr.Delete(R"(/kv/(.+))")`: `db.del` first, then read `last_error`.
On `false` with a non-empty error answer 500; on `false` with an empty
error answer 404 (the handler's "likely not found" branch); on `true`
erase the cache entry and answer 200 `"Deleted"`. -/
def handleDelete (s : SystemState) (key : String) (exec : ExecOutcome) :
    HttpResponse × SystemState :=
  match s.db.del key exec with
  | (ok, db1) =>
      if !ok then
        if db1.last_error ≠ "" then
          (⟨500, "error", none, some ("DB delete error: " ++ db1.last_error), none⟩,
            ⟨s.cache, db1⟩)
        else
          (⟨404, "error", none, some "Key not found", none⟩, ⟨s.cache, db1⟩)
      else
        (⟨200, "ok", none, none, some "Deleted"⟩, ⟨s.cache.erase key, db1⟩)

/-! ## Structural lemmas about the cache -/

/-- Splicing the node located by `find?` to the front permutes the list:
the spliced list `p :: l.eraseP f` has exactly the elements of `l`. -/
theorem find_cons_eraseP_perm {l : List (String × String)}
    {f : String × String → Bool} {p : String × String}
    (h : l.find? f = some p) : (p :: l.eraseP f).Perm l := by
  induction l with
  | nil => simp at h
  | cons a t ih =>
    by_cases hf : f a
    · rw [List.find?_cons_of_pos _ hf] at h
      injection h with h
      subst h
      rw [List.eraseP_cons_of_pos hf]
    · rw [List.find?_cons_of_neg _ hf] at h
      rw [List.eraseP_cons_of_neg hf]
      exact (List.Perm.swap a p _).trans ((ih h).cons a)

/-- Keys of the list after erasing one key's node: erasing the node whose
key matches erases that key from the key list. -/
theorem keys_eraseP (l : List (String × String)) (k : String) :
    (l.eraseP (fun q => q.1 == k)).map Prod.fst = (l.map Prod.fst).erase k := by
  rw [List.erase_eq_eraseP', List.eraseP_map]
  rfl

/-- A key the index contains is a key of some node, given the invariant. -/
theorem mem_keys_of_contains {c : LRUCache} (hInv : Inv c) {k : String}
    (h : c.map_.contains k = true) : k ∈ c.nodes_.map Prod.fst := by
  have hm : k ∈ c.map_ := by simpa using h
  exact hInv.2.2.mem_iff.mp hm

/-- A key among the node keys is found by `find?`, and the node found
carries that key. -/
theorem find_of_mem_keys {l : List (String × String)} {k : String}
    (h : k ∈ l.map Prod.fst) :
    ∃ p, l.find? (fun q => q.1 == k) = some p ∧ p.1 = k := by
  cases hfind : l.find? (fun q => q.1 == k) with
  | none =>
      rw [List.find?_eq_none] at hfind
      obtain ⟨p, hp, hpk⟩ := List.mem_map.mp h
      exact absurd (by simp [hpk]) (hfind p hp)
  | some p =>
      refine ⟨p, rfl, ?_⟩
      have := List.find?_some hfind
      simpa using this

/-- `get` preserves the structural invariant. -/
theorem inv_get (c : LRUCache) (k : String) (h : Inv c) : Inv ((c.get k).2) := by
  obtain ⟨h1, h2, h3⟩ := h
  unfold LRUCache.get
  by_cases hc : c.map_.contains k
  · simp only [hc, if_true]
    cases hfind : c.nodes_.find? (fun p => p.1 == k) with
    | none => exact ⟨h1, h2, h3⟩
    | some p =>
        have hperm := find_cons_eraseP_perm hfind
        exact ⟨hperm.length_eq ▸ h1,
          ((hperm.map Prod.fst).symm).nodup h2,
          h3.trans (hperm.map Prod.fst).symm⟩
  · simp only [hc, if_false]
    exact ⟨h1, h2, h3⟩

/-- The eviction step preserves the invariant, leaves the cache strictly
below capacity, and only removes node keys. -/
theorem inv_evictIfFull (c : LRUCache) (h : Inv c) (hcap : 1 ≤ c.capacity_) :
    Inv c.evictIfFull ∧ c.evictIfFull.nodes_.length < c.capacity_ ∧
      List.Sublist (c.evictIfFull.nodes_.map Prod.fst)
        (c.nodes_.map Prod.fst) := by
  obtain ⟨h1, h2, h3⟩ := h
  unfold LRUCache.evictIfFull
  by_cases hle : c.capacity_ ≤ c.nodes_.length
  · rw [if_pos hle]
    have hlen : c.nodes_.length = c.capacity_ := le_antisymm h1 hle
    have hne : c.nodes_ ≠ [] := by
      intro h0
      rw [h0] at hlen
      simp at hlen
      omega
    obtain ⟨last, hlast⟩ : ∃ a, c.nodes_.getLast? = some a := by
      cases hgl : c.nodes_.getLast? with
      | none => exact absurd (List.getLast?_eq_none_iff.mp hgl) hne
      | some a => exact ⟨a, rfl⟩
    have hdec : c.nodes_.dropLast ++ [last] = c.nodes_ :=
      List.dropLast_append_getLast? last hlast
    have hkeysdec : (c.nodes_.map Prod.fst) =
        c.nodes_.dropLast.map Prod.fst ++ [last.1] := by
      conv_lhs => rw [← hdec]
      simp
    have hsubkeys : List.Sublist (c.nodes_.dropLast.map Prod.fst)
        (c.nodes_.map Prod.fst) :=
      (List.dropLast_sublist c.nodes_).map Prod.fst
    rw [hlast]
    refine ⟨⟨?_, ?_, ?_⟩, ?_, ?_⟩
    · show c.nodes_.dropLast.length ≤ c.capacity_
      rw [List.length_dropLast]
      omega
    · exact h2.sublist hsubkeys
    · show (c.map_.erase last.1).Perm (c.nodes_.dropLast.map Prod.fst)
      have e1 : (c.map_.erase last.1).Perm ((c.nodes_.map Prod.fst).erase last.1) :=
        h3.erase last.1
      have e2 : ((c.nodes_.map Prod.fst).erase last.1).Perm
          (c.nodes_.dropLast.map Prod.fst) := by
        rw [hkeysdec]
        have hp := (List.perm_append_singleton last.1
          (c.nodes_.dropLast.map Prod.fst)).erase last.1
        rw [List.erase_cons_head] at hp
        exact hp
      exact e1.trans e2
    · show c.nodes_.dropLast.length < c.capacity_
      rw [List.length_dropLast]
      omega
    · exact hsubkeys
  · rw [if_neg hle]
    exact ⟨⟨h1, h2, h3⟩, Nat.lt_of_not_le hle, List.Sublist.refl _⟩

/-- `put` preserves the structural invariant (for a positive capacity). -/
theorem inv_put (c : LRUCache) (k v : String) (h : Inv c)
    (hcap : 1 ≤ c.capacity_) : Inv (c.put k v) := by
  have h3 := h.2.2
  unfold LRUCache.put
  by_cases hc : c.map_.contains k
  · rw [if_pos hc]
    obtain ⟨h1, h2, h3⟩ := h
    cases hfind : c.nodes_.find? (fun p => p.1 == k) with
    | none => exact ⟨h1, h2, h3⟩
    | some p =>
        have hperm := find_cons_eraseP_perm hfind
        have hlen := hperm.length_eq
        have hkeys : ((p.1, v) :: c.nodes_.eraseP (fun q => q.1 == k)).map Prod.fst
            = (p :: c.nodes_.eraseP (fun q => q.1 == k)).map Prod.fst := rfl
        refine ⟨?_, ?_, ?_⟩
        · show ((p.1, v) :: c.nodes_.eraseP (fun q => q.1 == k)).length ≤ c.capacity_
          simp only [List.length_cons] at hlen ⊢
          omega
        · show (((p.1, v) :: c.nodes_.eraseP (fun q => q.1 == k)).map Prod.fst).Nodup
          rw [hkeys]
          exact ((hperm.map Prod.fst).symm).nodup h2
        · show c.map_.Perm _
          rw [hkeys]
          exact h3.trans (hperm.map Prod.fst).symm
  · rw [if_neg hc]
    have hk : k ∉ c.nodes_.map Prod.fst := by
      intro hmem
      exact hc (by simpa using h3.mem_iff.mpr hmem)
    obtain ⟨⟨e1, e2, e3⟩, hlt, hsub⟩ := inv_evictIfFull c h hcap
    have hcapev : c.evictIfFull.capacity_ = c.capacity_ := by
      unfold LRUCache.evictIfFull
      by_cases hle : c.capacity_ ≤ c.nodes_.length
      · rw [if_pos hle]
        cases c.nodes_.getLast? <;> rfl
      · rw [if_neg hle]
    refine ⟨?_, ?_, ?_⟩
    · show c.evictIfFull.nodes_.length + 1 ≤ c.evictIfFull.capacity_
      rw [hcapev]
      omega
    · show (k :: c.evictIfFull.nodes_.map Prod.fst).Nodup
      exact List.nodup_cons.mpr ⟨fun hmem => hk (hsub.subset hmem), e2⟩
    · show (k :: c.evictIfFull.map_).Perm (k :: c.evictIfFull.nodes_.map Prod.fst)
      exact e3.cons k

/-- `erase` preserves the structural invariant. -/
theorem inv_erase (c : LRUCache) (k : String) (h : Inv c) : Inv (c.erase k) := by
  obtain ⟨h1, h2, h3⟩ := h
  unfold LRUCache.erase
  by_cases hc : c.map_.contains k
  · rw [if_pos hc]
    have hsub : List.Sublist (c.nodes_.eraseP (fun q => q.1 == k)) c.nodes_ :=
      List.eraseP_sublist c.nodes_
    refine ⟨?_, ?_, ?_⟩
    · exact le_trans (List.length_eraseP_le c.nodes_) h1
    · exact h2.sublist (hsub.map Prod.fst)
    · show (c.map_.erase k).Perm _
      rw [keys_eraseP]
      exact h3.erase k
  · rw [if_neg hc]
    exact ⟨h1, h2, h3⟩

/-- `clear` establishes the structural invariant outright. -/
theorem inv_clear (c : LRUCache) : Inv c.clear :=
  ⟨Nat.zero_le _, List.nodup_nil, List.Perm.refl _⟩

/-- No cache operation changes the capacity. -/
theorem capacity_applyOp (c : LRUCache) (op : CacheOp) :
    (applyOp c op).capacity_ = c.capacity_ := by
  cases op with
  | get k =>
      show ((c.get k).2).capacity_ = c.capacity_
      unfold LRUCache.get
      by_cases hc : c.map_.contains k
      · rw [if_pos hc]
        cases c.nodes_.find? (fun p => p.1 == k) <;> rfl
      · rw [if_neg hc]
  | put k v =>
      show (c.put k v).capacity_ = c.capacity_
      unfold LRUCache.put
      by_cases hc : c.map_.contains k
      · rw [if_pos hc]
        cases c.nodes_.find? (fun p => p.1 == k) <;> rfl
      · rw [if_neg hc]
        show c.evictIfFull.capacity_ = c.capacity_
        unfold LRUCache.evictIfFull
        by_cases hle : c.capacity_ ≤ c.nodes_.length
        · rw [if_pos hle]
          cases c.nodes_.getLast? <;> rfl
        · rw [if_neg hle]
  | erase k =>
      show (c.erase k).capacity_ = c.capacity_
      unfold LRUCache.erase
      by_cases hc : c.map_.contains k
      · rw [if_pos hc]
      · rw [if_neg hc]
  | clear => rfl

/-- One step preserves the invariant together with positive capacity. -/
theorem inv_applyOp (c : LRUCache) (op : CacheOp) (h : Inv c)
    (hcap : 1 ≤ c.capacity_) : Inv (applyOp c op) := by
  cases op with
  | get k => exact inv_get c k h
  | put k v => exact inv_put c k v h hcap
  | erase k => exact inv_erase c k h
  | clear => exact inv_clear c

/-- Any state reached from a fresh cache of positive capacity satisfies
the invariant. -/
theorem inv_runOps (cap : Nat) (hcap : 1 ≤ cap) (ops : List CacheOp) :
    Inv (runOps (LRUCache.init cap) ops) := by
  suffices h : ∀ (c : LRUCache), Inv c → 1 ≤ c.capacity_ →
      Inv (runOps c ops) ∧ 1 ≤ (runOps c ops).capacity_ by
    exact (h (LRUCache.init cap)
      ⟨Nat.zero_le _, List.nodup_nil, List.Perm.refl _⟩ hcap).1
  induction ops with
  | nil => exact fun c hc hcap' => ⟨hc, hcap'⟩
  | cons op rest ih =>
      intro c hc hcap'
      have hstep := inv_applyOp c op hc hcap'
      have hcapstep : 1 ≤ (applyOp c op).capacity_ := by
        rw [capacity_applyOp]; exact hcap'
      exact ih (applyOp c op) hstep hcapstep

/-- A missed `get` changes neither the node list nor the index. -/
theorem get_miss_structure (c : LRUCache) (k : String)
    (h : (c.get k).1 = none) :
    (c.get k).2.nodes_ = c.nodes_ ∧ (c.get k).2.map_ = c.map_ := by
  unfold LRUCache.get at h ⊢
  by_cases hc : c.map_.contains k
  · rw [if_pos hc] at h ⊢
    cases hfind : c.nodes_.find? (fun p => p.1 == k) with
    | none => exact ⟨rfl, rfl⟩
    | some p => rw [hfind] at h; exact absurd h (by simp)
  · rw [if_neg hc]
    exact ⟨rfl, rfl⟩

/-- The index keys are pairwise distinct in any invariant state. -/
theorem map_nodup_of_inv {c : LRUCache} (h : Inv c) : c.map_.Nodup :=
  (h.2.2.symm).nodup h.2.1

/-- After `erase k` the index no longer contains `k`. -/
theorem contains_erase_self (c : LRUCache) (k : String) (h : Inv c) :
    (c.erase k).map_.contains k = false := by
  unfold LRUCache.erase
  by_cases hc : c.map_.contains k
  · rw [if_pos hc]
    show (c.map_.erase k).contains k = false
    have hnd := map_nodup_of_inv h
    have : k ∉ c.map_.erase k := hnd.not_mem_erase
    simpa using this
  · rw [if_neg hc]
    simpa using hc

/-- `get` after `erase` of the same key misses. -/
theorem get_erase_miss (c : LRUCache) (k : String) (h : Inv c) :
    ((c.erase k).get k).1 = none := by
  have hc := contains_erase_self c k h
  unfold LRUCache.get
  rw [if_neg (by rw [hc]; simp)]

/-- When the node keys are pairwise distinct, erasing the (unique) node of
one key is filtering that key out. -/
theorem eraseP_eq_filter_of_nodup (l : List (String × String)) (k : String)
    (h : (l.map Prod.fst).Nodup) :
    l.eraseP (fun q => q.1 == k) = l.filter (fun q => q.1 != k) := by
  induction l with
  | nil => rfl
  | cons a t ih =>
    rw [List.map_cons, List.nodup_cons] at h
    by_cases hak : a.1 = k
    · rw [List.eraseP_cons_of_pos (by simp [hak]),
        List.filter_cons_of_neg (by simp [hak])]
      symm
      rw [List.filter_eq_self]
      intro p hp
      have hpk : p.1 ≠ k := by
        intro he
        exact h.1 (hak ▸ he ▸ List.mem_map.mpr ⟨p, hp, rfl⟩)
      simpa using hpk
    · rw [List.eraseP_cons_of_neg (by simp [hak]),
        List.filter_cons_of_pos (by simp [hak])]
      rw [ih h.2]

/-- When the index does not contain a key, `erase` of that key does
nothing. -/
theorem erase_no_op (c : LRUCache) (k : String)
    (hc : c.map_.contains k = false) : c.erase k = c := by
  unfold LRUCache.erase
  rw [if_neg (by rw [hc]; simp)]

/-! ## Claims about the cache -/

/-- C4: with `Inv` and capacity ≥ 1, a `put` of a new key at full capacity
evicts exactly the back (least-recently-used) node and inserts the new one
at the front, keeping the size at capacity; a `put` to an existing key
never evicts (size and key set are unchanged).  Concretely with capacity 2:
after `put(a,1); put(b,2); get(a); put(c,3)`, `b` is evicted, `get(a)` hits
with `1` and `get(c)` hits with `3`. -/
theorem C4_eviction_policy (c : LRUCache) (k v : String) (hInv : Inv c)
    (hcap : 1 ≤ c.capacity_) :
    (c.map_.contains k = false → c.nodes_.length = c.capacity_ →
      (c.put k v).nodes_ = (k, v) :: c.nodes_.dropLast ∧
      (c.put k v).size = c.capacity_) ∧
    (c.map_.contains k = true →
      (c.put k v).size = c.size ∧
      ((c.put k v).nodes_.map Prod.fst).Perm (c.nodes_.map Prod.fst)) ∧
    ((runOps (LRUCache.init 2)
        [.put "a" "1", .put "b" "2", .get "a", .put "c" "3"]).map_.contains "b" = false ∧
      ((runOps (LRUCache.init 2)
        [.put "a" "1", .put "b" "2", .get "a", .put "c" "3"]).get "a").1 = some "1" ∧
      (((runOps (LRUCache.init 2)
        [.put "a" "1", .put "b" "2", .get "a", .put "c" "3"]).get "a").2.get "c").1
        = some "3") := by
  refine ⟨?_, ?_, by decide⟩
  · intro hc hlen
    unfold LRUCache.put
    rw [if_neg (by rw [hc]; simp)]
    unfold LRUCache.evictIfFull
    rw [if_pos (le_of_eq hlen.symm)]
    have hne : c.nodes_ ≠ [] := by
      intro h0
      rw [h0] at hlen
      simp at hlen
      omega
    obtain ⟨last, hlast⟩ : ∃ a, c.nodes_.getLast? = some a := by
      cases hgl : c.nodes_.getLast? with
      | none => exact absurd (List.getLast?_eq_none_iff.mp hgl) hne
      | some a => exact ⟨a, rfl⟩
    rw [hlast]
    refine ⟨rfl, ?_⟩
    show c.nodes_.dropLast.length + 1 = c.capacity_
    rw [List.length_dropLast]
    omega
  · intro hc
    have hk := mem_keys_of_contains hInv hc
    obtain ⟨p, hfind, hpk⟩ := find_of_mem_keys hk
    unfold LRUCache.put
    rw [if_pos hc, hfind]
    have hperm := find_cons_eraseP_perm hfind
    have hlen := hperm.length_eq
    refine ⟨?_, ?_⟩
    · show ((p.1, v) :: c.nodes_.eraseP (fun q => q.1 == k)).length = c.nodes_.length
      simp only [List.length_cons] at hlen ⊢
      omega
    · show (((p.1, v) :: c.nodes_.eraseP (fun q => q.1 == k)).map Prod.fst).Perm _
      exact hperm.map Prod.fst

/-- C4 witness: the hypotheses hold at a concrete full cache of capacity 1
holding key "a", and the theorem applied there yields the eviction shape
for a put of the new key "b". -/
theorem C4_eviction_policy_witness :
    (Inv (⟨1, [("a", "1")], ["a"], 0, 0⟩ : LRUCache) ∧
      1 ≤ (⟨1, [("a", "1")], ["a"], 0, 0⟩ : LRUCache).capacity_ ∧
      (⟨1, [("a", "1")], ["a"], 0, 0⟩ : LRUCache).map_.contains "b" = false) ∧
    ((⟨1, [("a", "1")], ["a"], 0, 0⟩ : LRUCache).put "b" "2").nodes_
      = ("b", "2") :: ([("a", "1")] : List (String × String)).dropLast := by
  refine ⟨⟨by decide, by decide, by decide⟩, ?_⟩
  exact ((C4_eviction_policy ⟨1, [("a", "1")], ["a"], 0, 0⟩ "b" "2" (by decide)
    (by decide)).1 (by decide) (by decide)).1

/-- C5: every state reached from a fresh cache of capacity ≥ 1 by a finite
sequence of get/put/erase/clear keeps `size() ≤ capacity()`, and its lookup
index holds exactly the keys of the recency sequence, each key having
exactly one node (the node keys are pairwise distinct and the index is a
permutation of them). -/
theorem C5_reachable_invariant (cap : Nat) (hcap : 1 ≤ cap)
    (ops : List CacheOp) :
    (runOps (LRUCache.init cap) ops).size ≤ (runOps (LRUCache.init cap) ops).capacity ∧
    ((runOps (LRUCache.init cap) ops).map_).Perm
      ((runOps (LRUCache.init cap) ops).nodes_.map Prod.fst) ∧
    ((runOps (LRUCache.init cap) ops).nodes_.map Prod.fst).Nodup := by
  obtain ⟨h1, h2, h3⟩ := inv_runOps cap hcap ops
  exact ⟨h1, h3, h2⟩

/-- C5 witness: the invariant holds after a concrete operation sequence
that exercises hit, update, eviction, erase and clear at capacity 2. -/
theorem C5_reachable_invariant_witness :
    (1 ≤ 2) ∧
    ((runOps (LRUCache.init 2) [.put "a" "1", .put "b" "2", .get "a",
        .put "c" "3", .erase "c", .put "d" "4", .clear, .put "e" "5"]).size ≤
      (runOps (LRUCache.init 2) [.put "a" "1", .put "b" "2", .get "a",
        .put "c" "3", .erase "c", .put "d" "4", .clear, .put "e" "5"]).capacity) := by
  refine ⟨by decide, ?_⟩
  exact (C5_reachable_invariant 2 (by decide) [.put "a" "1", .put "b" "2", .get "a",
    .put "c" "3", .erase "c", .put "d" "4", .clear, .put "e" "5"]).1

/-- C7: under `Inv`, `erase(k)` followed by `get(k)` misses; the erased
state's recency sequence is exactly the original minus the nodes keyed
`k` (so every other key keeps its value and relative position); erasing an
absent key is a no-op; and erase is idempotent. -/
theorem C7_erase_semantics (c : LRUCache) (k : String) (hInv : Inv c) :
    ((c.erase k).get k).1 = none ∧
    (c.erase k).nodes_ = c.nodes_.filter (fun p => p.1 != k) ∧
    (c.map_.contains k = false → c.erase k = c) ∧
    (c.erase k).erase k = c.erase k := by
  refine ⟨get_erase_miss c k hInv, ?_, fun hc => erase_no_op c k hc,
    erase_no_op (c.erase k) k (contains_erase_self c k hInv)⟩
  unfold LRUCache.erase
  by_cases hc : c.map_.contains k
  · rw [if_pos hc]
    exact eraseP_eq_filter_of_nodup c.nodes_ k hInv.2.1
  · rw [if_neg hc]
    have hk : k ∉ c.nodes_.map Prod.fst := fun hmem =>
      hc (by simpa using hInv.2.2.mem_iff.mpr hmem)
    symm
    rw [List.filter_eq_self]
    intro p hp
    have hpk : p.1 ≠ k := fun he => hk (he ▸ List.mem_map.mpr ⟨p, hp, rfl⟩)
    simpa using hpk

/-- C7 witness: at a concrete two-entry cache, erasing "a" makes `get "a"`
miss while "b" keeps its node. -/
theorem C7_erase_semantics_witness :
    Inv (⟨2, [("a", "1"), ("b", "2")], ["a", "b"], 0, 0⟩ : LRUCache) ∧
    (((⟨2, [("a", "1"), ("b", "2")], ["a", "b"], 0, 0⟩ : LRUCache).erase "a").get "a").1
      = none ∧
    ((⟨2, [("a", "1"), ("b", "2")], ["a", "b"], 0, 0⟩ : LRUCache).erase "a").nodes_
      = ([("a", "1"), ("b", "2")] : List (String × String)).filter
          (fun p => p.1 != "a") := by
  refine ⟨by decide, ?_, ?_⟩
  · exact (C7_erase_semantics ⟨2, [("a", "1"), ("b", "2")], ["a", "b"], 0, 0⟩
      "a" (by decide)).1
  · exact (C7_erase_semantics ⟨2, [("a", "1"), ("b", "2")], ["a", "b"], 0, 0⟩
      "a" (by decide)).2.1

/-- C8: after `clear()` the size and both counters are zero while the
capacity is unchanged; and no operation whatsoever changes the capacity. -/
theorem C8_clear_resets (c : LRUCache) (op : CacheOp) :
    c.clear.size = 0 ∧ c.clear.hits = 0 ∧ c.clear.misses = 0 ∧
    c.clear.capacity = c.capacity ∧
    (applyOp c op).capacity = c.capacity := by
  exact ⟨rfl, rfl, rfl, rfl, capacity_applyOp c op⟩

/-! ## Claims about the coordinator handlers and the store -/

/-- C1: deleting a key the store holds no row for (live connection, DELETE
completes, key absent) still answers 200 and invalidates the cache entry
via `erase`, so a subsequent cache `get` of the key misses; a genuine store
error (failed DELETE with its non-empty diagnostic) answers 500 with the
error surfaced and leaves the cache untouched. -/
theorem C1_delete_absent_invalidates (s : SystemState) (key msg : String)
    (hconn : s.db.conn = true) (habs : tableGet s.db.table key = none)
    (hmsg : msg ≠ "") (hInv : Inv s.cache) :
    ((handleDelete s key .ok).1.status = 200 ∧
      (handleDelete s key .ok).2.cache = s.cache.erase key ∧
      (((handleDelete s key .ok).2.cache).get key).1 = none) ∧
    ((handleDelete s key (.fail msg)).1.status = 500 ∧
      (handleDelete s key (.fail msg)).2.cache = s.cache ∧
      (handleDelete s key (.fail msg)).1.error
        = some ("DB delete error: " ++ msg)) := by
  have hdelok : s.db.del key .ok
      = (true, ⟨true, tableDelete s.db.table key, s.db.last_err⟩) := by
    unfold PGStore.del
    rw [hconn]
    rfl
  have hdelfail : s.db.del key (.fail msg)
      = (false, ⟨true, s.db.table, msg⟩) := by
    unfold PGStore.del
    rw [hconn]
    rfl
  have hok : handleDelete s key .ok
      = (⟨200, "ok", none, none, some "Deleted"⟩,
          ⟨s.cache.erase key, ⟨true, tableDelete s.db.table key, s.db.last_err⟩⟩) := by
    unfold handleDelete
    rw [hdelok]
    rfl
  have hfail : handleDelete s key (.fail msg)
      = (⟨500, "error", none, some ("DB delete error: " ++ msg), none⟩,
          ⟨s.cache, ⟨true, s.db.table, msg⟩⟩) := by
    unfold handleDelete
    rw [hdelfail]
    show (if msg ≠ "" then _ else _) = _
    rw [if_pos hmsg]
    rfl
  rw [hok, hfail]
  exact ⟨⟨rfl, rfl, get_erase_miss s.cache key hInv⟩, rfl, rfl, rfl⟩

/-- C1 witness: concrete state — capacity-2 cache holding "a", live store
without a row for "a"; the theorem applied there gives the 200 outcome and
the subsequent miss. -/
theorem C1_delete_absent_invalidates_witness :
    ((⟨⟨2, [("a", "1")], ["a"], 0, 0⟩, ⟨true, [("k", "v")], ""⟩⟩ :
        SystemState).db.conn = true ∧
      tableGet [("k", "v")] "a" = none ∧ "boom" ≠ "" ∧
      Inv (⟨2, [("a", "1")], ["a"], 0, 0⟩ : LRUCache)) ∧
    ((handleDelete (⟨⟨2, [("a", "1")], ["a"], 0, 0⟩, ⟨true, [("k", "v")], ""⟩⟩ :
        SystemState) "a" .ok).1.status = 200 ∧
      ((handleDelete (⟨⟨2, [("a", "1")], ["a"], 0, 0⟩, ⟨true, [("k", "v")], ""⟩⟩ :
        SystemState) "a" .ok).2.cache.get "a").1 = none) := by
  refine ⟨⟨rfl, by decide, by decide, by decide⟩, ?_, ?_⟩
  · exact ((C1_delete_absent_invalidates
      ⟨⟨2, [("a", "1")], ["a"], 0, 0⟩, ⟨true, [("k", "v")], ""⟩⟩ "a" "boom"
      rfl (by decide) (by decide) (by decide)).1).1
  · exact ((C1_delete_absent_invalidates
      ⟨⟨2, [("a", "1")], ["a"], 0, 0⟩, ⟨true, [("k", "v")], ""⟩⟩ "a" "boom"
      rfl (by decide) (by decide) (by decide)).1).2.2

/-- C2 counterexample: with an empty capacity-2 cache and a live store
holding only key "k", a Get of "x" whose backend SELECT fails with
"connection lost" produces byte-for-byte the same 404 "Key not found"
response as a Get of the genuinely absent "x"; in particular the failure
is not reported by any outcome distinct from NotFound (no 500). -/
theorem C2_counterexample :
    (handleGet (⟨LRUCache.init 2, ⟨true, [("k", "v")], ""⟩⟩ : SystemState) "x"
        (.fail "connection lost")).1
      = (handleGet (⟨LRUCache.init 2, ⟨true, [("k", "v")], ""⟩⟩ : SystemState) "x"
        .ok).1 ∧
    (handleGet (⟨LRUCache.init 2, ⟨true, [("k", "v")], ""⟩⟩ : SystemState) "x"
        (.fail "connection lost")).1.status = 404 ∧
    ¬(handleGet (⟨LRUCache.init 2, ⟨true, [("k", "v")], ""⟩⟩ : SystemState) "x"
        (.fail "connection lost")).1.status = 500 := by
  decide

/-- C2 amended: on a cache miss the Get handler collapses every `db.get`
failure — genuine backend error as much as plain absence — into the same
NotFound response (404, "Key not found"); it never produces a distinct
StoreUnavailable outcome, its status being always 200 or 404. -/
theorem C2_amended_get_conflates_errors (s : SystemState) (key msg : String)
    (hmiss : (s.cache.get key).1 = none) :
    (handleGet s key (.fail msg)).1.status = 404 ∧
    (handleGet s key (.fail msg)).1.error = some "Key not found" ∧
    (∀ exec : ExecOutcome, (handleGet s key exec).1.status = 200 ∨
      (handleGet s key exec).1.status = 404) := by
  have hsplit : ∀ exec : ExecOutcome, (handleGet s key exec).1.status = 200 ∨
      ((handleGet s key exec).1.status = 404 ∧
        (handleGet s key exec).1.error = some "Key not found") := by
    intro exec
    unfold handleGet
    cases hc : s.cache.get key with
    | mk o cache1 =>
        cases o with
        | some v => exact Or.inl rfl
        | none =>
            cases hdb : s.db.get key exec with
            | mk o1 db1 =>
                cases o1 with
                | some v => exact Or.inl rfl
                | none => exact Or.inr ⟨rfl, rfl⟩
  have hfail : (handleGet s key (.fail msg)).1.status = 404 ∧
      (handleGet s key (.fail msg)).1.error = some "Key not found" := by
    unfold handleGet
    cases hc : s.cache.get key with
    | mk o cache1 =>
        cases o with
        | some v =>
            rw [hc] at hmiss
            exact absurd hmiss (by simp)
        | none =>
            show (match s.db.get key (.fail msg) with
              | (some val, db1) => _
              | (none, db1) => _ : HttpResponse × SystemState × Bool).1.status = 404 ∧ _
            unfold PGStore.get
            cases s.db.conn with
            | false => exact ⟨rfl, rfl⟩
            | true => exact ⟨rfl, rfl⟩
  refine ⟨hfail.1, hfail.2, fun exec => ?_⟩
  rcases hsplit exec with h | h
  · exact Or.inl h
  · exact Or.inr h.1

/-- C2 amended witness: the miss hypothesis holds for the empty cache, and
the applied theorem gives the 404 on a failing backend. -/
theorem C2_amended_get_conflates_errors_witness :
    (((LRUCache.init 2).get "x").1 = none) ∧
    (handleGet (⟨LRUCache.init 2, ⟨true, [("k", "v")], ""⟩⟩ : SystemState) "x"
      (.fail "boom")).1.status = 404 := by
  refine ⟨by decide, ?_⟩
  exact (C2_amended_get_conflates_errors
    ⟨LRUCache.init 2, ⟨true, [("k", "v")], ""⟩⟩ "x" "boom" (by decide)).1

/-- C3: the Put handler is write-through — the cache is updated exactly
when `db.put` succeeded.  On any store failure (failed INSERT or no
connection) it answers 500 "DB write failed" and the cache is the very
cache from before the call; on success it answers 201 and the cache holds
the new value via `put`. -/
theorem C3_put_write_through (s : SystemState) (key value msg : String) :
    ((handlePut s key value (.fail msg)).1.status = 500 ∧
      (handlePut s key value (.fail msg)).1.error = some "DB write failed" ∧
      (handlePut s key value (.fail msg)).2.cache = s.cache) ∧
    (s.db.conn = false →
      (handlePut s key value .ok).1.status = 500 ∧
      (handlePut s key value .ok).2.cache = s.cache) ∧
    (s.db.conn = true →
      (handlePut s key value .ok).1.status = 201 ∧
      (handlePut s key value .ok).2.cache = s.cache.put key value ∧
      (handlePut s key value .ok).2.db.table = tableUpsert s.db.table key value) := by
  unfold handlePut PGStore.put
  cases hconn : s.db.conn with
  | false =>
      refine ⟨⟨rfl, rfl, rfl⟩, fun _ => ⟨rfl, rfl⟩, fun h => absurd h (by simp)⟩
  | true =>
      refine ⟨⟨rfl, rfl, rfl⟩, fun h => absurd h (by simp), fun _ => ⟨rfl, rfl, rfl⟩⟩

/-- C3 witness: at a concrete state, a failing store put answers 500
leaving the cache untouched, and a succeeding one answers 201. -/
theorem C3_put_write_through_witness :
    ((⟨⟨2, [("a", "1")], ["a"], 0, 0⟩, ⟨true, [], ""⟩⟩ : SystemState).db.conn
      = true) ∧
    (handlePut (⟨⟨2, [("a", "1")], ["a"], 0, 0⟩, ⟨true, [], ""⟩⟩ : SystemState)
      "k" "v" (.fail "down")).2.cache = (⟨2, [("a", "1")], ["a"], 0, 0⟩ : LRUCache) ∧
    (handlePut (⟨⟨2, [("a", "1")], ["a"], 0, 0⟩, ⟨true, [], ""⟩⟩ : SystemState)
      "k" "v" .ok).1.status = 201 := by
  refine ⟨rfl, ?_, ?_⟩
  · exact (C3_put_write_through
      ⟨⟨2, [("a", "1")], ["a"], 0, 0⟩, ⟨true, [], ""⟩⟩ "k" "v" "down").1.2.2
  · exact ((C3_put_write_through
      ⟨⟨2, [("a", "1")], ["a"], 0, 0⟩, ⟨true, [], ""⟩⟩ "k" "v" "down").2.2 rfl).1

/-- C6: the Get handler serves a cache hit from the cache alone (response
200 with the cached value, store untouched, DB never queried); on a miss
with the store reporting found it returns the value and populates the
cache via `put`; on a miss with the store reporting not-found (live
connection, completed SELECT, no row) it answers 404 and the cache's
entries and index are exactly as before. -/
theorem C6_get_cache_aside (s : SystemState) (key : String)
    (exec : ExecOutcome) :
    (∀ v cache1, s.cache.get key = (some v, cache1) →
      handleGet s key exec
        = (⟨200, "ok", some v, none, none⟩, ⟨cache1, s.db⟩, false)) ∧
    (∀ cache1 v db1, s.cache.get key = (none, cache1) →
      s.db.get key exec = (some v, db1) →
      handleGet s key exec
        = (⟨200, "ok", some v, none, none⟩, ⟨cache1.put key v, db1⟩, true)) ∧
    ((s.cache.get key).1 = none → s.db.conn = true →
      tableGet s.db.table key = none →
      (handleGet s key .ok).1.status = 404 ∧
      (handleGet s key .ok).2.1.cache.nodes_ = s.cache.nodes_ ∧
      (handleGet s key .ok).2.1.cache.map_ = s.cache.map_) := by
  refine ⟨?_, ?_, ?_⟩
  · intro v cache1 h
    unfold handleGet
    rw [h]
  · intro cache1 v db1 h1 h2
    unfold handleGet
    rw [h1, h2]
  · intro h1 h2 h3
    have hdb : s.db.get key .ok = (none, s.db) := by
      unfold PGStore.get
      rw [h2, h3]
      rfl
    obtain ⟨hn, hm⟩ := get_miss_structure s.cache key h1
    cases hc : s.cache.get key with
    | mk o cache1 =>
        rw [hc] at h1
        subst h1
        rw [hc] at hn hm
        unfold handleGet
        rw [hc, hdb]
        exact ⟨rfl, hn, hm⟩

/-- C6 witness: concrete hit, populate-on-miss and absent-key cases. -/
theorem C6_get_cache_aside_witness :
    ((⟨2, [("a", "1")], ["a"], 0, 0⟩ : LRUCache).get "a"
        = (some "1", ⟨2, [("a", "1")], ["a"], 1, 0⟩) ∧
      ((LRUCache.init 2).get "x").1 = none ∧
      tableGet [("k", "v")] "x" = none) ∧
    handleGet (⟨⟨2, [("a", "1")], ["a"], 0, 0⟩, ⟨true, [("k", "v")], ""⟩⟩ :
        SystemState) "a" .ok
      = (⟨200, "ok", some "1", none, none⟩,
          ⟨⟨2, [("a", "1")], ["a"], 1, 0⟩, ⟨true, [("k", "v")], ""⟩⟩, false) ∧
    (handleGet (⟨LRUCache.init 2, ⟨true, [("k", "v")], ""⟩⟩ : SystemState)
        "x" .ok).1.status = 404 := by
  refine ⟨⟨by decide, by decide, by decide⟩, ?_, ?_⟩
  · exact (C6_get_cache_aside
      ⟨⟨2, [("a", "1")], ["a"], 0, 0⟩, ⟨true, [("k", "v")], ""⟩⟩ "a" .ok).1
      "1" ⟨2, [("a", "1")], ["a"], 1, 0⟩ (by decide)
  · exact ((C6_get_cache_aside
      ⟨LRUCache.init 2, ⟨true, [("k", "v")], ""⟩⟩ "x" .ok).2.2
      (by decide) rfl (by decide)).1

/-- C9: `PGStore::del` answers `true` exactly when the connection is live
and the DELETE command completes — the table's contents, in particular
whether the key had a row, never influence the returned flag, so a caller
cannot tell "existed and deleted" from "was already absent". -/
theorem C9_del_ignores_row_presence (st : PGStore) (key : String)
    (exec : ExecOutcome) :
    ((st.del key exec).1 = (st.conn && (exec == ExecOutcome.ok))) ∧
    (st.conn = true → tableGet st.table key = none →
      (st.del key .ok).1 = true) ∧
    (∀ t1 t2 : List (String × String),
      ((⟨st.conn, t1, st.last_err⟩ : PGStore).del key exec).1
        = ((⟨st.conn, t2, st.last_err⟩ : PGStore).del key exec).1) := by
  obtain ⟨conn, table, last_err⟩ := st
  refine ⟨?_, ?_, ?_⟩
  · cases conn <;> cases exec <;> rfl
  · intro hconn _
    cases conn with
    | false => exact absurd hconn (by simp)
    | true => rfl
  · intro t1 t2
    cases conn <;> cases exec <;> rfl

/-- C9 witness: on a live store whose table lacks "x", deleting "x"
reports success. -/
theorem C9_del_ignores_row_presence_witness :
    ((true : Bool) = true ∧ tableGet [("k", "v")] "x" = none) ∧
    ((⟨true, [("k", "v")], ""⟩ : PGStore).del "x" .ok).1 = true := by
  refine ⟨⟨rfl, by decide⟩, ?_⟩
  exact (C9_del_ignores_row_presence ⟨true, [("k", "v")], ""⟩ "x" .ok).2.1
    rfl (by decide)

/-- On a failed delete, the Delete handler reduces to the 500/404 choice
on `last_error()`. -/
theorem handleDelete_false (s : SystemState) (key : String)
    (exec : ExecOutcome) (db1 : PGStore)
    (hdel : s.db.del key exec = (false, db1)) :
    handleDelete s key exec =
      if db1.last_error ≠ "" then
        (⟨500, "error", none, some ("DB delete error: " ++ db1.last_error), none⟩,
          ⟨s.cache, db1⟩)
      else
        (⟨404, "error", none, some "Key not found", none⟩, ⟨s.cache, db1⟩) := by
  unfold handleDelete
  rw [hdel]
  rfl

/-- C10: `last_err` is written only on failure paths — a successful get,
put or delete, and a get that merely finds no row, leave it untouched; so
after a failed put, a later absent-key get still shows the stale message
through `last_error()`; and the Delete handler picks 500 vs 404 on a
failed delete solely by whether `last_error()` is empty. -/
theorem C10_last_error_is_sticky (st : PGStore) (s : SystemState)
    (key key2 value msg : String) (exec : ExecOutcome)
    (hconn : st.conn = true) (hmsg : msg ≠ "") :
    ((st.get key .ok).2.last_error = st.last_error ∧
      (st.put key value .ok).2.last_error = st.last_error ∧
      (st.del key .ok).2.last_error = st.last_error) ∧
    (tableGet st.table key2 = none →
      (((st.put key value (.fail msg)).2.get key2 .ok).1 = none ∧
        ((st.put key value (.fail msg)).2.get key2 .ok).2.last_error = msg)) ∧
    ((s.db.del key exec).1 = false →
      (handleDelete s key exec).1.status
        = if (s.db.del key exec).2.last_error = "" then 404 else 500) := by
  refine ⟨?_, ?_, ?_⟩
  · unfold PGStore.get PGStore.put PGStore.del
    rw [hconn]
    exact ⟨rfl, rfl, rfl⟩
  · intro habs
    have hput : (st.put key value (.fail msg)).2 = ⟨true, st.table, msg⟩ := by
      unfold PGStore.put
      rw [hconn]
      rfl
    rw [hput]
    refine ⟨?_, rfl⟩
    show tableGet st.table key2 = none
    exact habs
  · intro hfalse
    cases hdel : s.db.del key exec with
    | mk ok db1 =>
        rw [hdel] at hfalse
        simp only at hfalse
        subst hfalse
        rw [handleDelete_false s key exec db1 hdel]
        show _ = if db1.last_error = "" then 404 else 500
        by_cases he : db1.last_error = ""
        · rw [if_neg (fun hn => hn he), if_pos he]
        · rw [if_pos he, if_neg he]

/-- C10 witness: a store with a stale error "old boom" and no row for "x";
the hypotheses hold and the applied theorem shows the stale text surviving
an absent-key get after a failed put. -/
theorem C10_last_error_is_sticky_witness :
    ((true : Bool) = true ∧ "boom" ≠ "" ∧
      tableGet [("k", "v")] "x" = none) ∧
    ((((⟨true, [("k", "v")], "old boom"⟩ : PGStore).put "k" "v2"
        (.fail "boom")).2.get "x" .ok).1 = none ∧
      (((⟨true, [("k", "v")], "old boom"⟩ : PGStore).put "k" "v2"
        (.fail "boom")).2.get "x" .ok).2.last_error = "boom") := by
  refine ⟨⟨rfl, by decide, by decide⟩, ?_⟩
  exact (C10_last_error_is_sticky ⟨true, [("k", "v")], "old boom"⟩
    ⟨LRUCache.init 2, ⟨true, [], ""⟩⟩ "k" "x" "v2" "boom" .ok rfl
    (by decide)).2.1 (by decide)

end KVService
